import Mathlib

/-!
Shallow embedding of the Al-Bookmark-Brain search and enrichment core.

Sources embedded here:
- src/services/search/search-config.ts   (strategy configuration, calculateScore, loadSearchStrategies)
- src/services/search/search-engine.ts   (checkMatch, getFieldText, category parsing, the search pipeline)
- src/services/search/frecency.service.ts (sortByFrecency wrapper; the frecency library is a collaborator)
- src/lib/garbled-content-detector.ts    (detectGarbledContent)
- src/services/sync/summarization-queue.ts (failure path of summarizeBookmark, refetchGarbledContent per-item step)
- src/services/database.service.ts       (updateStatus, resetAnalyzingToRetry, markFetchFailed, findPending)
- src/database/schema.ts                 (UPDATE_BOOKMARK_STATUS, GET_BOOKMARKS_PENDING, ai_summaries UNIQUE)

JavaScript strings are modelled as Lean String (a list of unicode scalar
values), JS numbers used for scores as Rat, timestamps and lengths as Nat.
External collaborators (the pinyin matcher, the Fuse approximate index, the
frecency library, content fetch) are parameters of the embedding.
-/

set_option maxRecDepth 4000

-- =====================================================
-- JS string primitives
-- =====================================================

/-- Whitespace in the JS sense: the set matched by the regex class backslash-s
and removed by String.trim. -/
def jsIsWhitespace (c : Char) : Bool :=
  c == ' ' || c == '\t' || c == '\n' || c.toNat == 11 || c.toNat == 12 || c == '\r' ||
  c.toNat == 0xA0 || c.toNat == 0x1680 || (0x2000 ≤ c.toNat && c.toNat ≤ 0x200A) ||
  c.toNat == 0x2028 || c.toNat == 0x2029 || c.toNat == 0x202F || c.toNat == 0x205F ||
  c.toNat == 0x3000 || c.toNat == 0xFEFF

/-- Line terminators, the characters a JS dot never matches. -/
def isLineTerminator (c : Char) : Bool :=
  c == '\n' || c == '\r' || c.toNat == 0x2028 || c.toNat == 0x2029

/-- JS String.trim on a list of characters. -/
def jsTrimL (l : List Char) : List Char :=
  ((l.dropWhile jsIsWhitespace).reverse.dropWhile jsIsWhitespace).reverse

/-- JS String.trim. -/
def jsTrim (s : String) : String := String.mk (jsTrimL s.data)

/-- Lower-casing of one character as JS toLowerCase does on the Basic Latin and
Latin-1 range (the only range the embedded code lower-cases): ASCII A-Z,
Latin-1 capitals except the multiplication sign, and U+0178. -/
def jsCharLower (c : Char) : Char :=
  let n := c.toNat
  if 65 ≤ n && n ≤ 90 then Char.ofNat (n + 32)
  else if 0xC0 ≤ n && n ≤ 0xDE && n != 0xD7 then Char.ofNat (n + 32)
  else if n == 0x178 then Char.ofNat 0xFF
  else c

/-- JS String.toLowerCase. -/
def jsToLower (s : String) : String := String.mk (s.data.map jsCharLower)

/-- Containment of a character sequence, scanning left to right. -/
def containsSeq (pat : List Char) : List Char → Bool
  | [] => pat.isEmpty
  | c :: rest => pat.isPrefixOf (c :: rest) || containsSeq pat rest

/-- JS String.includes. -/
def jsIncludes (text pat : String) : Bool := containsSeq pat.data text.data

/-- Count of positions at which a literal pattern occurs. For the literals it
is applied to (HTML entities, whose single ampersand sits at the first
position) two occurrences can never overlap, so this equals the
non-overlapping leftmost match count a global JS regex over the literal
produces. -/
def countOccursAux (pat : List Char) : List Char → Nat
  | [] => 0
  | c :: rest => (if pat.isPrefixOf (c :: rest) then 1 else 0) + countOccursAux pat rest

def countOccurs (pat : List Char) (l : List Char) : Nat := countOccursAux pat l

/-- Count of maximal runs of characters satisfying p whose length reaches
minLen; a global greedy JS regex of the form class-repeat-minLen-or-more
produces exactly one match per such run. -/
def countRunsAux (p : Char → Bool) (minLen : Nat) : List Char → Nat → Nat
  | [], run => if 0 < run ∧ minLen ≤ run then 1 else 0
  | c :: rest, run =>
    if p c then countRunsAux p minLen rest (run + 1)
    else (if 0 < run ∧ minLen ≤ run then 1 else 0) + countRunsAux p minLen rest 0

def countRuns (p : Char → Bool) (minLen : Nat) (l : List Char) : Nat :=
  countRunsAux p minLen l 0

def isAsciiDigit (c : Char) : Bool := 48 ≤ c.toNat && c.toNat ≤ 57

def isHexDigitCI (c : Char) : Bool :=
  isAsciiDigit c || (97 ≤ c.toNat && c.toNat ≤ 102) || (65 ≤ c.toNat && c.toNat ≤ 70)

/-- Predicate: the numeric HTML entity regex (ampersand, hash, one or more
digits, semicolon) matches at the start of the list. -/
def numEntityAt : List Char → Bool
  | '&' :: '#' :: rest =>
    (match rest.dropWhile isAsciiDigit with
     | ';' :: _ => !(rest.takeWhile isAsciiDigit).isEmpty
     | _ => false)
  | _ => false

/-- Predicate: the hexadecimal HTML entity regex (case-insensitive; ampersand,
hash, x, one or more hex digits, semicolon) matches at the start of the list. -/
def hexEntityAt : List Char → Bool
  | '&' :: '#' :: x :: rest =>
    (x == 'x' || x == 'X') &&
    (match rest.dropWhile isHexDigitCI with
     | ';' :: _ => !(rest.takeWhile isHexDigitCI).isEmpty
     | _ => false)
  | _ => false

/-- Count of suffix positions at which a predicate holds. -/
def countStarts (p : List Char → Bool) : List Char → Nat
  | [] => 0
  | c :: rest => (if p (c :: rest) then 1 else 0) + countStarts p rest

/-- Count of matches of the numeric HTML entity regex over the list. An entity
match contains its only ampersand at its first position, so matches of this
pattern can never overlap and the global-regex match count equals the count of
positions where a match begins. -/
def countNumEntity (l : List Char) : Nat := countStarts numEntityAt l

/-- Count of matches of the hexadecimal HTML entity regex over the list; the
same non-overlap argument as for countNumEntity applies. -/
def countHexEntity (l : List Char) : Nat := countStarts hexEntityAt l

-- =====================================================
-- Garbled content detector (src/lib/garbled-content-detector.ts)
-- =====================================================

/-- Result record of detectGarbledContent (the diagnostic reason string is not
modelled). -/
structure GarbledDetectionResult where
  isGarbled : Bool
  isEmpty : Bool
  needsRefetch : Bool
  score : Nat
deriving DecidableEq

def apostrophe : Char := Char.ofNat 39

def framesPhrase1 : String := "this page uses frames"

def framesPhrase2 : String :=
  String.mk ("your browser doesn".data ++ [apostrophe] ++ "t support".data)

def framesPhrase3 : String := "your browser does not support frames"

def htmlEntityNames : List String := ["&nbsp;", "&amp;", "&lt;", "&gt;", "&quot;"]

/-- Characters of the single-character mojibake class of the source. -/
def isMojibakeSingle (c : Char) : Bool :=
  c.toNat == 0x5A7 || c.toNat == 0x3CD || c.toNat == 0x376

/-- Latin-1 lowercase extension run class, matched case-insensitively. -/
def latin1LowerCI (c : Char) : Bool :=
  0xE6 ≤ (jsCharLower c).toNat && (jsCharLower c).toNat ≤ 0xFF

/-- Latin-1 uppercase run class (case-sensitive in the source). -/
def latin1Upper (c : Char) : Bool :=
  0xC0 ≤ c.toNat && c.toNat ≤ 0xDE

def latinExtA (c : Char) : Bool := 0x100 ≤ c.toNat && c.toNat ≤ 0x17F

def latinExtB (c : Char) : Bool := 0x180 ≤ c.toNat && c.toNat ≤ 0x24F

def greekRange (c : Char) : Bool := 0x370 ≤ c.toNat && c.toNat ≤ 0x3FF

def cyrillicRange (c : Char) : Bool := 0x400 ≤ c.toNat && c.toNat ≤ 0x4FF

def isCJK (c : Char) : Bool :=
  (0x4E00 ≤ c.toNat && c.toNat ≤ 0x9FFF) || (0x3400 ≤ c.toNat && c.toNat ≤ 0x4DBF)

/-- Frameset fallback boilerplate check of the source, over the lower-cased
trimmed content. -/
def framesFallback (t : List Char) : Bool :=
  containsSeq framesPhrase1.data (t.map jsCharLower) ||
  containsSeq framesPhrase2.data (t.map jsCharLower) ||
  containsSeq framesPhrase3.data (t.map jsCharLower)

/-- Accumulated signal score of detectGarbledContent over the trimmed content:
replacement characters, un-decoded HTML entities, mojibake character runs,
question-mark runs, and the low-CJK-ratio booster applied when some other
signal already fired. Ratio comparisons against the float literals 0.01 and
0.05 are expressed as the equivalent exact integer comparisons. -/
def garbledScore (t : List Char) : Nat :=
  let len := t.length
  let lower := t.map jsCharLower
  let replacementCount := t.countP (fun c => c.toNat == 0xFFFD)
  let s1 : Nat :=
    if 0 < replacementCount then
      if len < replacementCount * 100 then 50
      else if 3 < replacementCount then 30
      else 0
    else 0
  let htmlEntityCount :=
    ((htmlEntityNames.map (fun p => countOccurs p.data lower)).sum)
    + countNumEntity t + countHexEntity t
  let s2 : Nat := if 5 < htmlEntityCount then 40 else if 2 < htmlEntityCount then 20 else 0
  let mojibakeMatches :=
    t.countP isMojibakeSingle
    + countRuns latin1LowerCI 2 t + countRuns latin1Upper 2 t
    + countRuns latinExtA 3 t + countRuns latinExtB 3 t
    + countRuns greekRange 2 t + countRuns cyrillicRange 3 t
  let s3 : Nat := if 10 < mojibakeMatches then 40 else if 3 < mojibakeMatches then 25 else 0
  let questionRuns := countRuns (fun c => c == '?') 3 t
  let s4 : Nat := if 2 < questionRuns then 20 else 0
  let base := s1 + s2 + s3 + s4
  let cjkCount := t.countP isCJK
  let s5 : Nat :=
    if 0 < cjkCount ∧ cjkCount < 20 ∧ cjkCount * 20 < len ∧ 0 < base then 15 else 0
  base + s5

/-- Embedding of detectGarbledContent: empty and whitespace-only content is
empty, content of trimmed length under 50 needs a refetch but is not flagged,
frameset fallback boilerplate is a fixed high-confidence override, and
otherwise isGarbled fires exactly at accumulated score 40. -/
def detectGarbledContent (content : String) : GarbledDetectionResult :=
  if content.isEmpty || (jsTrim content).data.isEmpty then
    ⟨false, true, true, 0⟩
  else if (jsTrim content).data.length < 50 then
    ⟨false, false, true, 0⟩
  else if framesFallback (jsTrim content).data then
    ⟨true, false, true, 100⟩
  else
    ⟨decide (40 ≤ garbledScore (jsTrim content).data), false,
     decide (40 ≤ garbledScore (jsTrim content).data),
     garbledScore (jsTrim content).data⟩

-- =====================================================
-- Strategy configuration (src/services/search/search-config.ts)
-- =====================================================

inductive SearchField where
  | url | title | tag | summary | category | notes | content
deriving DecidableEq

inductive MatchMode where
  | exactCase | exact | pinyin | fuzzy
deriving DecidableEq

structure SearchStrategy where
  id : String
  field : SearchField
  matchType : MatchMode
  enabled : Bool
  label : String
  labelZh : String
deriving DecidableEq

/-- Hardcoded default strategy list, in priority order. -/
def DEFAULT_SEARCH_STRATEGIES : List SearchStrategy := [
  ⟨"url_exact_case", SearchField.url, MatchMode.exactCase, true, "URL (Exact)", "URL（精确）"⟩,
  ⟨"url_exact", SearchField.url, MatchMode.exact, true, "URL (Case-insensitive)", "URL（忽略大小写）"⟩,
  ⟨"url_pinyin", SearchField.url, MatchMode.pinyin, true, "URL (Pinyin)", "URL（拼音）"⟩,
  ⟨"url_fuzzy", SearchField.url, MatchMode.fuzzy, true, "URL (Fuzzy)", "URL（模糊）"⟩,
  ⟨"title_exact_case", SearchField.title, MatchMode.exactCase, true, "Title (Exact)", "标题（精确）"⟩,
  ⟨"title_exact", SearchField.title, MatchMode.exact, true, "Title (Case-insensitive)", "标题（忽略大小写）"⟩,
  ⟨"title_pinyin", SearchField.title, MatchMode.pinyin, true, "Title (Pinyin)", "标题（拼音）"⟩,
  ⟨"title_fuzzy", SearchField.title, MatchMode.fuzzy, true, "Title (Fuzzy)", "标题（模糊）"⟩,
  ⟨"tag_exact_case", SearchField.tag, MatchMode.exactCase, true, "Tag (Exact)", "标签（精确）"⟩,
  ⟨"tag_exact", SearchField.tag, MatchMode.exact, true, "Tag (Case-insensitive)", "标签（忽略大小写）"⟩,
  ⟨"tag_pinyin", SearchField.tag, MatchMode.pinyin, true, "Tag (Pinyin)", "标签（拼音）"⟩,
  ⟨"tag_fuzzy", SearchField.tag, MatchMode.fuzzy, true, "Tag (Fuzzy)", "标签（模糊）"⟩,
  ⟨"summary_exact", SearchField.summary, MatchMode.exact, true, "AI Summary", "AI 摘要"⟩,
  ⟨"summary_fuzzy", SearchField.summary, MatchMode.fuzzy, true, "AI Summary (Fuzzy)", "AI 摘要（模糊）"⟩,
  ⟨"category_exact", SearchField.category, MatchMode.exact, true, "Category", "分类"⟩,
  ⟨"category_pinyin", SearchField.category, MatchMode.pinyin, true, "Category (Pinyin)", "分类（拼音）"⟩,
  ⟨"notes_exact", SearchField.notes, MatchMode.exact, true, "Notes", "笔记"⟩,
  ⟨"notes_fuzzy", SearchField.notes, MatchMode.fuzzy, true, "Notes (Fuzzy)", "笔记（模糊）"⟩]

/-- Embedding of calculateScore. The JS double arithmetic is modelled exactly
over the rationals. -/
def calculateScore (strategyIndex totalStrategies : Nat) : ℚ :=
  100 - ((strategyIndex : ℚ) / ((max 1 (totalStrategies - 1) : Nat) : ℚ)) * (100 - 40)

/-- One user-saved (id, enabled) override pair. -/
structure SavedStrategy where
  id : String
  enabled : Bool
deriving DecidableEq

/-- Copy of a strategy with the enabled flag replaced (the object spread of the
source). -/
def setEnabled (s : SearchStrategy) (e : Bool) : SearchStrategy :=
  ⟨s.id, s.field, s.matchType, e, s.label, s.labelZh⟩

/-- Loop body of loadSearchStrategies: for one saved pair, when its id exists
among the defaults, push the default definition with the saved enabled flag
and record the id as used. -/
def mergeStep (acc : List SearchStrategy × List String) (sv : SavedStrategy) :
    List SearchStrategy × List String :=
  match DEFAULT_SEARCH_STRATEGIES.find? (fun d => d.id == sv.id) with
  | some d => (acc.1 ++ [setEnabled d sv.enabled], acc.2 ++ [sv.id])
  | none => acc

/-- Embedding of loadSearchStrategies. The absent saved-order case is the none
case; the Map over default ids is List.find? (default ids are distinct). -/
def loadSearchStrategies (savedOrder : Option (List SavedStrategy)) : List SearchStrategy :=
  match savedOrder with
  | none => DEFAULT_SEARCH_STRATEGIES
  | some strategies =>
    if strategies.isEmpty then DEFAULT_SEARCH_STRATEGIES
    else
      let merged := strategies.foldl mergeStep ([], [])
      merged.1 ++ DEFAULT_SEARCH_STRATEGIES.filter (fun d => !(merged.2.contains d.id))

/-- Definition following the words of the specification claim about the merge
rule, to be compared with loadSearchStrategies: emit, in saved order, the
default definition with the saved enabled flag for each saved id present among
the defaults; then append, in default order, the defaults whose id is absent
from the saved list; defaults verbatim when the saved list is absent or empty. -/
def loadStrategiesSpec (savedOrder : Option (List SavedStrategy)) : List SearchStrategy :=
  match savedOrder with
  | none => DEFAULT_SEARCH_STRATEGIES
  | some strategies =>
    if strategies.isEmpty then DEFAULT_SEARCH_STRATEGIES
    else
      strategies.filterMap (fun sv =>
        (DEFAULT_SEARCH_STRATEGIES.find? (fun d => d.id == sv.id)).map
          (fun d => setEnabled d sv.enabled))
      ++ DEFAULT_SEARCH_STRATEGIES.filter (fun d => !(strategies.any (fun sv => sv.id == d.id)))

def getEnabledStrategies (strategies : List SearchStrategy) : List SearchStrategy :=
  strategies.filter (fun s => s.enabled)

-- =====================================================
-- Search engine data model (src/shared/types, src/services/search/search-engine.ts)
-- =====================================================

structure Tag where
  name : String
  nameZh : Option String
  nameEn : Option String
  namePinyin : Option String
deriving DecidableEq

structure Category where
  name : String
  namePinyin : Option String
deriving DecidableEq

structure AISummary where
  summaryText : String
deriving DecidableEq

/-- Denormalized bookmark projection used by the search index. -/
structure BookmarkWithDetails where
  id : Nat
  url : String
  originalTitle : String
  pageContent : Option String
  userNotes : Option String
  summary : Option AISummary
  tags : List Tag
  category : Option Category
  isPinned : Bool
  lastUpdated : Nat
deriving DecidableEq

inductive SearchType where
  | default | fulltext | tag | category
deriving DecidableEq

inductive MatchType where
  | exactCase | exact | title | url | summary | tag | category | notes | content
  | fuzzy | pinyin | semantic
deriving DecidableEq

structure SearchResult where
  bookmark : BookmarkWithDetails
  score : ℚ
  matchType : MatchType
  matchedField : String
deriving DecidableEq

/-- Embedding of checkMatch; the pinyin matcher is an external collaborator
passed as a boolean predicate (its try-catch fail-closed wrapper is absorbed
into the predicate). The text parameter is falsy in JS when it is the empty
string. -/
def checkMatch (pinyinM : String → String → Bool) (query text : String) (m : MatchMode) : Bool :=
  if text.isEmpty then false
  else
    match m with
    | MatchMode.exactCase => jsIncludes text query
    | MatchMode.exact => jsIncludes (jsToLower text) (jsToLower query)
    | MatchMode.pinyin => pinyinM text query
    | MatchMode.fuzzy => false

/-- Field text lists of one tag: the four name forms with falsy entries
dropped. -/
def tagTexts (t : Tag) : List String :=
  (([some t.name, t.nameZh, t.nameEn, t.namePinyin].filterMap id).filter (fun s => !s.isEmpty))

/-- Embedding of getFieldText. -/
def getFieldText (b : BookmarkWithDetails) (f : SearchField) : List String :=
  match f with
  | SearchField.url => if b.url.isEmpty then [] else [b.url]
  | SearchField.title => if b.originalTitle.isEmpty then [] else [b.originalTitle]
  | SearchField.tag => (b.tags.map tagTexts).flatten
  | SearchField.summary =>
    match b.summary with
    | some s => if s.summaryText.isEmpty then [] else [s.summaryText]
    | none => []
  | SearchField.category =>
    match b.category with
    | some c => ([some c.name, c.namePinyin].filterMap id).filter (fun s => !s.isEmpty)
    | none => []
  | SearchField.notes =>
    match b.userNotes with
    | some n => if n.isEmpty then [] else [n]
    | none => []
  | SearchField.content =>
    match b.pageContent with
    | some p => if p.isEmpty then [] else [p]
    | none => []

/-- Embedding of fieldToMatchType. The per-field fallback switch of the source
is unreachable because the four mode checks cover the whole MatchMode type. -/
def fieldToMatchType (_f : SearchField) (m : MatchMode) : MatchType :=
  match m with
  | MatchMode.exactCase => MatchType.exactCase
  | MatchMode.exact => MatchType.exact
  | MatchMode.pinyin => MatchType.pinyin
  | MatchMode.fuzzy => MatchType.fuzzy

/-- String form of a field, as stored in matchedField. -/
def fieldName : SearchField → String
  | SearchField.url => "url"
  | SearchField.title => "title"
  | SearchField.tag => "tag"
  | SearchField.summary => "summary"
  | SearchField.category => "category"
  | SearchField.notes => "notes"
  | SearchField.content => "content"

-- =====================================================
-- Search pipeline (src/services/search/search-engine.ts, search)
-- =====================================================

/-- Condition under which the strategy loop of phase 1 skips a strategy:
content field outside fulltext mode, or a fuzzy-mode strategy. -/
def strategyApplicable (st : SearchType) (s : SearchStrategy) : Bool :=
  !(s.field == SearchField.content && st != SearchType.fulltext) &&
  !(s.matchType == MatchMode.fuzzy)

/-- Some field text of the bookmark satisfies the match mode of the strategy. -/
def strategyHits (pm : String → String → Bool) (q : String) (b : BookmarkWithDetails)
    (s : SearchStrategy) : Bool :=
  (getFieldText b s.field).any (fun t => checkMatch pm q t s.matchType)

/-- Inner loop of phase 1 of search: walk the enabled strategies in priority
order, skip content-field strategies outside fulltext mode and fuzzy
strategies, and stop at the first strategy whose field texts match (the source
breaks out of the loop at the first match). -/
def firstMatchIdxAux (pm : String → String → Bool) (st : SearchType) (q : String)
    (b : BookmarkWithDetails) : List SearchStrategy → Nat → Option (Nat × SearchStrategy)
  | [], _ => none
  | s :: rest, i =>
    if s.field == SearchField.content && st != SearchType.fulltext then
      firstMatchIdxAux pm st q b rest (i + 1)
    else if s.matchType == MatchMode.fuzzy then
      firstMatchIdxAux pm st q b rest (i + 1)
    else if strategyHits pm q b s then some (i, s)
    else firstMatchIdxAux pm st q b rest (i + 1)

def firstMatchIdx (pm : String → String → Bool) (st : SearchType) (q : String)
    (b : BookmarkWithDetails) (strats : List SearchStrategy) : Option (Nat × SearchStrategy) :=
  firstMatchIdxAux pm st q b strats 0

/-- Phase-1 result of one bookmark: the score of its first matching strategy,
or none. -/
def scoreBookmark (pm : String → String → Bool) (st : SearchType) (q : String)
    (enabled : List SearchStrategy) (b : BookmarkWithDetails) : Option SearchResult :=
  (firstMatchIdx pm st q b enabled).map (fun is =>
    ⟨b, calculateScore is.1 enabled.length, fieldToMatchType is.2.field is.2.matchType,
     fieldName is.2.field⟩)

/-- Phase 1 of search over the candidate set; the id-keyed result map of the
source holds at most one entry per bookmark, in candidate order. -/
def strategyPhase (pm : String → String → Bool) (st : SearchType) (q : String)
    (enabled : List SearchStrategy) (candidates : List BookmarkWithDetails) : List SearchResult :=
  candidates.filterMap (scoreBookmark pm st q enabled)

/-- One hit of the approximate-match index collaborator (Fuse): the item and
its normalized distance score, 0 best. -/
structure FuseHit where
  item : BookmarkWithDetails
  score : ℚ
deriving DecidableEq

/-- Phase-2 loop of search: add each fuzzy hit whose id is not already present,
scored by the fuzzy base score scaled by 1 - hit score. -/
def addFuzzyHits (fuzzyBase : ℚ) : List FuseHit → List SearchResult → List SearchResult
  | [], acc => acc
  | h :: rest, acc =>
    if acc.any (fun r => r.bookmark.id == h.item.id) then addFuzzyHits fuzzyBase rest acc
    else addFuzzyHits fuzzyBase rest
      (acc ++ [⟨h.item, fuzzyBase * (1 - h.score), MatchType.fuzzy, "fuzzy"⟩])

/-- Phase 2 of search: runs only below the limit, with a fuzzy strategy
enabled and a non-empty effective query; asks the approximate index for at most
limit minus current count hits. -/
def fuzzyPhase (fuseHits : List FuseHit) (limit : Nat) (fuzzyBase : ℚ) (hasFuzzy : Bool)
    (effQ : String) (phase1 : List SearchResult) : List SearchResult :=
  if phase1.length < limit ∧ hasFuzzy = true ∧ effQ.isEmpty = false then
    addFuzzyHits fuzzyBase (fuseHits.take (limit - phase1.length)) phase1
  else phase1

/-- Insertion of an element into a list sorted by the boolean comparator le:
it goes right before the first element b with le a b. -/
def sortInsert {α : Type} (le : α → α → Bool) (a : α) : List α → List α
  | [] => [a]
  | b :: l => if le a b then a :: b :: l else b :: sortInsert le a l

/-- Stable sort by a boolean total-preorder comparator. A stable sort by a
total preorder has a unique result, so this insertion sort produces exactly
the list the stable JS Array.sort produces for the corresponding comparator. -/
def stableSort {α : Type} (le : α → α → Bool) : List α → List α
  | [] => []
  | a :: l => sortInsert le a (stableSort le l)

/-- Comparator of the final sort: pinned first, then score descending. -/
def resLe (a b : SearchResult) : Bool :=
  if a.bookmark.isPinned && !b.bookmark.isPinned then true
  else if !a.bookmark.isPinned && b.bookmark.isPinned then false
  else decide (b.score ≤ a.score)

/-- Comparator of the category-browse sort: pinned first, then last update
descending. -/
def catLe (a b : BookmarkWithDetails) : Bool :=
  if a.isPinned && !b.isPinned then true
  else if !a.isPinned && b.isPinned then false
  else decide (b.lastUpdated ≤ a.lastUpdated)

/-- External collaborators of the search pipeline. -/
structure SearchEnv where
  pinyinMatch : String → String → Bool
  fuse : String → List FuseHit
  frecencySort : String → List SearchResult → List SearchResult

/-- Embedding of sortByFrecency of frecency.service.ts: normalize the query,
return the input unchanged on an empty query or result list, defer to the
frecency collaborator otherwise (its try-catch is absorbed into the
collaborator). -/
def sortByFrecency (env : SearchEnv) (q : String) (results : List SearchResult) :
    List SearchResult :=
  let nq := jsTrim (jsToLower q)
  if nq.isEmpty || results.isEmpty then results
  else env.frecencySort nq results

def atSignFull : Char := Char.ofNat 0xFF20

/-- Match of the category regex against an already-trimmed query: an at sign
(half or full width), a maximal non-empty run of non-whitespace characters as
the token, then optionally whitespace and the rest. The rest group of the
regex is a dot-star, so a match in which the rest still holds a line
terminator after the greedy whitespace run is impossible and backtracking over
a shorter token cannot help (the character after a shortened token is
non-whitespace); the whole regex then fails. -/
def categoryPrefixMatch (q : List Char) : Option (List Char × Option (List Char)) :=
  match q with
  | [] => none
  | c :: rest =>
    if c == '@' || c == atSignFull then
      let tok := rest.takeWhile (fun d => !jsIsWhitespace d)
      if tok.isEmpty then none
      else
        let after := rest.dropWhile (fun d => !jsIsWhitespace d)
        if after.isEmpty then some (tok, none)
        else
          let r2 := after.dropWhile jsIsWhitespace
          if r2.any isLineTerminator then none
          else some (tok, some r2)
    else none

/-- Embedding of isCategorySearch. -/
def isCategorySearch (query : String) : Bool :=
  (categoryPrefixMatch (jsTrim query).data).isSome

structure ParsedCategory where
  category : String
  keyword : String
deriving DecidableEq

/-- Embedding of parseCategorySearch. -/
def parseCategorySearch (query : String) : ParsedCategory :=
  match categoryPrefixMatch (jsTrim query).data with
  | some (tok, rst) => ⟨String.mk tok, jsTrim (String.mk (rst.getD []))⟩
  | none => ⟨"", query⟩

/-- Case-insensitive equality of the category name of a bookmark with the
category filter; a bookmark without a category never matches. -/
def categoryNameMatches (catFilter : String) (b : BookmarkWithDetails) : Bool :=
  match b.category with
  | some c => jsToLower c.name == jsToLower catFilter
  | none => false

/-- Phases 1, 2, final sort, limit slice, pinned split and frecency re-rank of
search, shared by the category-keyword branch and the plain branch. -/
def runPhases (env : SearchEnv) (enabled : List SearchStrategy) (st : SearchType)
    (effQ origQ : String) (limit : Nat) (candidates : List BookmarkWithDetails) :
    List SearchResult :=
  let total := enabled.length
  let phase1 := strategyPhase env.pinyinMatch st effQ enabled candidates
  let hasFuzzy := enabled.any (fun s => s.matchType == MatchMode.fuzzy)
  let fuzzyBase : ℚ :=
    match enabled.findIdx? (fun s => s.matchType == MatchMode.fuzzy) with
    | some i => calculateScore i total
    | none => 35
  let results := fuzzyPhase (env.fuse effQ) limit fuzzyBase hasFuzzy effQ phase1
  let sorted := (stableSort resLe results).take limit
  let pinned := sorted.filter (fun r => r.bookmark.isPinned)
  let normal := sorted.filter (fun r => !r.bookmark.isPinned)
  pinned ++ sortByFrecency env (if effQ.isEmpty then origQ else effQ) normal

/-- Embedding of search. The refreshed index and the loaded strategy list are
parameters; the search-history write is fire-and-forget and does not affect
the returned list. -/
def search (env : SearchEnv) (strategies : List SearchStrategy)
    (index : List BookmarkWithDetails) (query : String) (st : SearchType) (limit : Nat) :
    List SearchResult :=
  if (jsTrim query).data.isEmpty then []
  else
    let enabled := getEnabledStrategies strategies
    if isCategorySearch query then
      let parsed := parseCategorySearch query
      let filteredIndex := index.filter (categoryNameMatches parsed.category)
      if parsed.keyword.isEmpty then
        ((stableSort catLe filteredIndex).take limit).map
          (fun b => ⟨b, 100, MatchType.category, "category"⟩)
      else runPhases env enabled st parsed.keyword query limit filteredIndex
    else runPhases env enabled st query query limit index

-- =====================================================
-- Enrichment queue rows (summarization-queue.ts, database.service.ts, schema.ts)
-- =====================================================

inductive BookmarkStatus where
  | pending | analyzing | completed | failed
deriving DecidableEq

/-- Bookmark row columns relevant to the enrichment queue, recovery and repair
flows. -/
structure QBookmark where
  id : Nat
  status : BookmarkStatus
  retryCount : Nat
  errorMessage : Option String
  analyzedAt : Option Nat
  pageContent : Option String
  fetchFailedAt : Option Nat
  fetchFailReason : Option String
  createdAt : Nat
  lastUpdated : Nat
deriving DecidableEq

/-- Embedding of BookmarkRepository.updateStatus, which executes
UPDATE_BOOKMARK_STATUS: it sets status, error_message, analyzed_at (now when
completed, null otherwise) and last_updated; it touches no other column. -/
def updateStatusRow (now : Nat) (s : BookmarkStatus) (err : Option String)
    (b : QBookmark) : QBookmark :=
  ⟨b.id, s, b.retryCount, err,
   if s == BookmarkStatus.completed then some now else none,
   b.pageContent, b.fetchFailedAt, b.fetchFailReason, b.createdAt, now⟩

/-- Embedding of the catch branch of summarizeBookmark: compute
newRetryCount = retryCount + 1 in memory and call updateStatus with failed when
newRetryCount reaches 3, pending otherwise. -/
def summarizeFailureUpdate (now : Nat) (err : String) (b : QBookmark) : QBookmark :=
  let newRetryCount := b.retryCount + 1
  updateStatusRow now
    (if 3 ≤ newRetryCount then BookmarkStatus.failed else BookmarkStatus.pending)
    (some err) b

/-- Row effect of BookmarkRepository.resetAnalyzingToRetry on one row: the SQL
sets status to pending, increments retry_count and stamps last_updated on rows
whose status is analyzing, and leaves every other row untouched. -/
def resetAnalyzingRow (now : Nat) (b : QBookmark) : QBookmark :=
  if b.status == BookmarkStatus.analyzing then
    ⟨b.id, BookmarkStatus.pending, b.retryCount + 1, b.errorMessage, b.analyzedAt,
     b.pageContent, b.fetchFailedAt, b.fetchFailReason, b.createdAt, now⟩
  else b

/-- Embedding of BookmarkRepository.resetAnalyzingToRetry over a table. -/
def resetAnalyzingToRetry (now : Nat) (db : List QBookmark) : List QBookmark :=
  db.map (resetAnalyzingRow now)

/-- Startup recovery pass of background.ts: the call to resetAnalyzingToRetry
is placed outside the branch on the persisted queue-running flag, so the flag
argument does not influence the pass. -/
def backgroundStartupReset (_running : Bool) (now : Nat) (db : List QBookmark) :
    List QBookmark :=
  resetAnalyzingToRetry now db

/-- WHERE predicate of GET_BOOKMARKS_PENDING: pending, or failed with
retry_count below 3. -/
def pendingSelectable (b : QBookmark) : Bool :=
  b.status == BookmarkStatus.pending ||
  (b.status == BookmarkStatus.failed && decide (b.retryCount < 3))

def createdAsc (a b : QBookmark) : Bool := decide (a.createdAt ≤ b.createdAt)

/-- Embedding of BookmarkRepository.findPending: selectable rows ordered by
created_at ascending, first limit rows. -/
def findPending (db : List QBookmark) (limit : Nat) : List QBookmark :=
  (stableSort createdAsc (db.filter pendingSelectable)).take limit

/-- Embedding of BookmarkRepository.markFetchFailed: stamp fetch_failed_at and
the reason, touch last_updated, leave everything else. -/
def markFetchFailed (now : Nat) (reason : String) (b : QBookmark) : QBookmark :=
  ⟨b.id, b.status, b.retryCount, b.errorMessage, b.analyzedAt, b.pageContent,
   some now, some reason, b.createdAt, now⟩

/-- Row effect of BookmarkRepository.updateContent (the content hash and
content_fetched_at columns are not modelled). -/
def updateContentRow (now : Nat) (c : String) (b : QBookmark) : QBookmark :=
  ⟨b.id, b.status, b.retryCount, b.errorMessage, b.analyzedAt, some c,
   b.fetchFailedAt, b.fetchFailReason, b.createdAt, now⟩

/-- Skip predicate of the repair scan of refetchGarbledContent: a bookmark
whose fetch_failed_at is truthy (a non-zero timestamp) is excluded. -/
def repairScanSkips (b : QBookmark) : Bool :=
  match b.fetchFailedAt with
  | some ts => ts != 0
  | none => false

def refetchFailReason (len : Nat) : String :=
  "无法获取内容 (" ++ toString len ++ " bytes)"

/-- Per-bookmark step of refetchGarbledContent given the fetch collaborator
result: accept content longer than 50 characters that is not garbled and not
shorter than half the stored content; reject still-garbled or much-shorter
content leaving the row unchanged; dead-mark the bookmark when the fetch
returned null or at most 50 characters. -/
def refetchStep (now : Nat) (b : QBookmark) (newContent : Option String) : QBookmark :=
  match newContent with
  | some nc =>
    if 50 < nc.length then
      if (detectGarbledContent nc).isGarbled then b
      else
        match b.pageContent with
        | some oc =>
          if oc.isEmpty = false ∧ nc.length * 2 < oc.length then b
          else updateContentRow now nc b
        | none => updateContentRow now nc b
    else markFetchFailed now (refetchFailReason nc.length) b
  | none => markFetchFailed now (refetchFailReason 0) b

-- =====================================================
-- Summary rows (schema.ts ai_summaries, AISummaryRepository.create)
-- =====================================================

/-- Row of the ai_summaries table (columns relevant to uniqueness). -/
structure SummaryRow where
  bookmarkId : Nat
  aiProvider : String
  summaryText : String
  createdAt : Nat
deriving DecidableEq

def uniqueViolationMsg : String := "UNIQUE constraint failed: ai_summaries.bookmark_id"

/-- Embedding of AISummaryRepository.create: an unconditional INSERT into
ai_summaries, whose bookmark_id column carries a UNIQUE constraint; the SQL
engine rejects the insert when a row with the same bookmark_id exists. -/
def insertSummary (table : List SummaryRow) (row : SummaryRow) :
    Except String (List SummaryRow) :=
  if table.any (fun r => r.bookmarkId == row.bookmarkId) then
    Except.error uniqueViolationMsg
  else Except.ok (table ++ [row])

/-- At most one summary row per bookmark. -/
def summariesUnique (table : List SummaryRow) : Prop :=
  table.Pairwise (fun r s => r.bookmarkId ≠ s.bookmarkId)

-- =====================================================
-- Concrete data used by witnesses and counterexamples
-- =====================================================

/-- Environment whose collaborators are trivial: the pinyin matcher never
matches, the approximate index returns no hit, the frecency sorter is the
identity. -/
def envTrivial : SearchEnv := ⟨fun _ _ => false, fun _ => [], fun _ l => l⟩

def uFFFD : Char := Char.ofNat 0xFFFD

def garbled40 : String := String.mk (List.replicate 40 uFFFD)

def garbled50 : String := String.mk (List.replicate 50 uFFFD)

def garbled60 : String := String.mk (List.replicate 60 uFFFD)

def para500 : String := String.mk (List.replicate 500 '中')

def catX : Category := ⟨"x", none⟩

def bmkX1 : BookmarkWithDetails := ⟨1, "https://a", "A", none, none, none, [], some catX, false, 10⟩

def bmkX2 : BookmarkWithDetails := ⟨2, "https://b", "B", none, none, none, [], some catX, true, 5⟩

def catServer : Category := ⟨"服务器", none⟩

def bmkServer : BookmarkWithDetails :=
  ⟨3, "https://s", "S", none, none, none, [], some catServer, false, 7⟩

def bmkReact : BookmarkWithDetails :=
  ⟨4, "reactsite", "React Guide", none, none, none, [], none, false, 3⟩

def qbRetry1 : QBookmark := ⟨1, BookmarkStatus.analyzing, 1, none, none, none, none, none, 100, 100⟩

def qbRetry2 : QBookmark := ⟨2, BookmarkStatus.analyzing, 2, none, none, none, none, none, 100, 100⟩

def qbAnalyzing : QBookmark :=
  ⟨5, BookmarkStatus.analyzing, 0, none, none, none, none, none, 50, 60⟩

def qbCompleted : QBookmark :=
  ⟨6, BookmarkStatus.completed, 0, none, some 55, none, none, none, 40, 55⟩

def qbRepair : QBookmark :=
  ⟨7, BookmarkStatus.completed, 0, none, none, some garbled60, none, none, 40, 55⟩

def rowSum1 : SummaryRow := ⟨9, "deepseek", "sum one", 100⟩

def rowSum2 : SummaryRow := ⟨9, "gemini", "sum two", 200⟩

def fuseHitW : FuseHit := ⟨bmkReact, mkRat 1 2⟩

def enabledW : List SearchStrategy := [
  ⟨"title_exact", SearchField.title, MatchMode.exact, true, "Title (Case-insensitive)", "标题（忽略大小写）"⟩,
  ⟨"url_fuzzy", SearchField.url, MatchMode.fuzzy, true, "URL (Fuzzy)", "URL（模糊）"⟩]

def errBoom : String := "boom"

def qReactW : String := "react"

-- =====================================================
-- Theorems
-- =====================================================

/-- C6: the claim says a failing summarization attempt increments the
persisted retryCount (a bookmark with stored retryCount 1 should end pending
with retryCount 2). The catch branch of summarizeBookmark computes
newRetryCount = retryCount + 1 only in memory and then runs
UPDATE_BOOKMARK_STATUS, which sets no retry_count column, so the stored
counter stays at 1; the part of the claim about stored retryCount 2 becoming
failed does hold, since the in-memory counter reaches 3 and selects the
failed status. -/
theorem summarize_failure_retry_not_persisted :
    (summarizeFailureUpdate 1000 errBoom qbRetry1).status = BookmarkStatus.pending ∧
    (summarizeFailureUpdate 1000 errBoom qbRetry1).retryCount = 1 ∧
    (summarizeFailureUpdate 1000 errBoom qbRetry2).status = BookmarkStatus.failed ∧
    (summarizeFailureUpdate 1000 errBoom qbRetry2).retryCount = 2 := by
  decide

/-- C9 (amended): the garbled-content classifier flags a 50-character string of
repeated replacement characters as garbled (a 40-character one falls under the
minimum-length threshold of 50 and is not flagged, see the counterexample);
the empty string is empty and not garbled; a 500-character native-language
paragraph is not garbled; and on every input isGarbled holds exactly when the
returned accumulated score reaches the fixed threshold 40. -/
theorem garbled_detector_spec :
    (detectGarbledContent garbled50).isGarbled = true ∧
    (detectGarbledContent (String.mk [])).isEmpty = true ∧
    (detectGarbledContent (String.mk [])).isGarbled = false ∧
    (detectGarbledContent para500).isGarbled = false ∧
    ∀ content : String,
      (detectGarbledContent content).isGarbled =
        decide (40 ≤ (detectGarbledContent content).score) := by
  refine ⟨by decide, by decide, by decide, by decide, ?_⟩
  intro content
  unfold detectGarbledContent
  split
  · rfl
  · split
    · rfl
    · split
      · rfl
      · rfl

/-- C9 counterexample: the 40-character string of repeated Unicode replacement
characters that the claim says is classified garbled is in fact below the
50-character minimum-length threshold and comes back with isGarbled false. -/
theorem garbled40_not_flagged :
    garbled40.length = 40 ∧
    (detectGarbledContent garbled40).isGarbled = false ∧
    (detectGarbledContent garbled40).needsRefetch = true := by
  decide

/-- C10: under the UNIQUE constraint of ai_summaries.bookmark_id, a create
call for a bookmark that already has a summary row is rejected with a
constraint error, and any successful insert preserves the at-most-one-summary
per-bookmark invariant, so two summary rows for one bookmark can never
coexist. -/
theorem summary_unique_insert (table : List SummaryRow) (row : SummaryRow)
    (hinv : summariesUnique table) :
    ((∃ r ∈ table, r.bookmarkId = row.bookmarkId) →
      insertSummary table row = Except.error uniqueViolationMsg) ∧
    (∀ t2, insertSummary table row = Except.ok t2 → summariesUnique t2) := by
  constructor
  · rintro ⟨r, hr, he⟩
    have hany : table.any (fun r => r.bookmarkId == row.bookmarkId) = true :=
      List.any_eq_true.mpr ⟨r, hr, by simp [he]⟩
    simp [insertSummary, hany]
  · intro t2 hok
    unfold insertSummary at hok
    by_cases h : table.any (fun r => r.bookmarkId == row.bookmarkId) = true
    · rw [if_pos h] at hok
      exact absurd hok (by simp)
    · rw [if_neg h] at hok
      have ht2 : table ++ [row] = t2 := by
        exact Except.ok.inj hok
      subst ht2
      have hne : ∀ r ∈ table, r.bookmarkId ≠ row.bookmarkId := by
        intro r hr
        have := List.any_eq_false.mp (Bool.eq_false_iff.mpr h) r hr
        simpa using this
      unfold summariesUnique
      refine List.pairwise_append.mpr ⟨hinv, List.pairwise_singleton _ _, ?_⟩
      intro a ha b hb
      rcases List.mem_singleton.mp hb with rfl
      exact hne a ha

/-- Witness for C10 at a concrete table: a one-row table for bookmark 9
satisfies the invariant and a second create for bookmark 9 is rejected. -/
theorem summary_unique_insert_witness :
    summariesUnique [rowSum1] ∧
    insertSummary [rowSum1] rowSum2 = Except.error uniqueViolationMsg := by
  have hinv : summariesUnique [rowSum1] := List.pairwise_singleton _ _
  exact ⟨hinv, (summary_unique_insert [rowSum1] rowSum2 hinv).1
    ⟨rowSum1, List.mem_cons_self _ _, rfl⟩⟩

/-- C7: the startup recovery pass (which background.ts runs outside the
queue-running-flag branch, so for every flag value) turns every bookmark that
is in analyzing state into a pending row with retryCount incremented by
exactly one, preserving its identity and creation time, and the resulting row
satisfies the WHERE predicate of the next chunk fetch (pending, or failed with
retry_count below 3); rows not in analyzing state pass through unchanged. -/
theorem startup_reset_analyzing (running : Bool) (now : Nat) (db : List QBookmark)
    (b : QBookmark) (hb : b ∈ db) :
    (b.status = BookmarkStatus.analyzing →
      resetAnalyzingRow now b ∈ backgroundStartupReset running now db ∧
      (resetAnalyzingRow now b).status = BookmarkStatus.pending ∧
      (resetAnalyzingRow now b).retryCount = b.retryCount + 1 ∧
      (resetAnalyzingRow now b).id = b.id ∧
      (resetAnalyzingRow now b).createdAt = b.createdAt ∧
      (resetAnalyzingRow now b).pageContent = b.pageContent ∧
      pendingSelectable (resetAnalyzingRow now b) = true) ∧
    (b.status ≠ BookmarkStatus.analyzing → b ∈ backgroundStartupReset running now db) := by
  constructor
  · intro hst
    have hmem : resetAnalyzingRow now b ∈ backgroundStartupReset running now db :=
      List.mem_map_of_mem _ hb
    refine ⟨hmem, ?_, ?_, ?_, ?_, ?_, ?_⟩ <;>
      simp [resetAnalyzingRow, hst, pendingSelectable]
  · intro hst
    have hrow : resetAnalyzingRow now b = b := by
      unfold resetAnalyzingRow
      rw [if_neg]
      simp [hst]
    have hmem : resetAnalyzingRow now b ∈ backgroundStartupReset running now db :=
      List.mem_map_of_mem _ hb
    rwa [hrow] at hmem

/-- Witness for C7 at a concrete table holding one analyzing and one completed
bookmark. -/
theorem startup_reset_analyzing_witness :
    resetAnalyzingRow 70 qbAnalyzing ∈ backgroundStartupReset true 70 [qbAnalyzing, qbCompleted] ∧
    (resetAnalyzingRow 70 qbAnalyzing).status = BookmarkStatus.pending ∧
    (resetAnalyzingRow 70 qbAnalyzing).retryCount = qbAnalyzing.retryCount + 1 ∧
    (resetAnalyzingRow 70 qbAnalyzing).id = qbAnalyzing.id ∧
    (resetAnalyzingRow 70 qbAnalyzing).createdAt = qbAnalyzing.createdAt ∧
    (resetAnalyzingRow 70 qbAnalyzing).pageContent = qbAnalyzing.pageContent ∧
    pendingSelectable (resetAnalyzingRow 70 qbAnalyzing) = true :=
  (startup_reset_analyzing true 70 [qbAnalyzing, qbCompleted] qbAnalyzing
    (List.mem_cons_self _ _)).1 rfl

/-- C8 (amended): in the repair sub-flow, a re-fetched bookmark gets its
content replaced only when the new content is longer than 50 characters, not
itself classified garbled, and not less than half the length of the previous
content; a fetch failure (null, or at most 50 characters) dead-marks the
bookmark so that the repair scan skips it from then on; but a rejection of a
long-enough fetch (still garbled, or much shorter than the stored content)
leaves the row entirely unchanged — in particular it is not dead-marked and
stays eligible for future repair scans. -/
theorem refetch_step_spec (now : Nat) (b : QBookmark) (nc : String) :
    (refetchStep now b none = markFetchFailed now (refetchFailReason 0) b) ∧
    ((markFetchFailed now (refetchFailReason 0) b).pageContent = b.pageContent) ∧
    (0 < now → repairScanSkips (markFetchFailed now (refetchFailReason 0) b) = true) ∧
    (nc.length ≤ 50 →
      refetchStep now b (some nc) = markFetchFailed now (refetchFailReason nc.length) b) ∧
    (50 < nc.length → (detectGarbledContent nc).isGarbled = true →
      refetchStep now b (some nc) = b) ∧
    (50 < nc.length → (detectGarbledContent nc).isGarbled = false →
      ∀ oc, b.pageContent = some oc → oc.isEmpty = false → nc.length * 2 < oc.length →
        refetchStep now b (some nc) = b) ∧
    (50 < nc.length → (detectGarbledContent nc).isGarbled = false →
      (∀ oc, b.pageContent = some oc → oc.isEmpty = true ∨ oc.length ≤ nc.length * 2) →
      (refetchStep now b (some nc)).pageContent = some nc ∧
      (refetchStep now b (some nc)).fetchFailedAt = b.fetchFailedAt) := by
  refine ⟨rfl, rfl, ?_, ?_, ?_, ?_, ?_⟩
  · intro hnow
    simp [markFetchFailed, repairScanSkips]
    omega
  · intro hlen
    simp only [refetchStep]
    rw [if_neg (by omega)]
  · intro hlen hgar
    simp only [refetchStep]
    rw [if_pos hlen, if_pos hgar]
  · intro hlen hgar oc hoc hne hshort
    simp only [refetchStep]
    rw [if_pos hlen, if_neg (by simp [hgar]), hoc]
    show (if oc.isEmpty = false ∧ nc.length * 2 < oc.length then b
          else updateContentRow now nc b) = b
    rw [if_pos ⟨hne, hshort⟩]
  · intro hlen hgar hacc
    simp only [refetchStep]
    rw [if_pos hlen, if_neg (by simp [hgar])]
    cases hpc : b.pageContent with
    | none => exact ⟨rfl, rfl⟩
    | some oc =>
      have hor := hacc oc hpc
      have hno : ¬ (oc.isEmpty = false ∧ nc.length * 2 < oc.length) := by
        rintro ⟨h1, h2⟩
        rcases hor with h | h
        · rw [h1] at h; cases h
        · omega
      constructor
      · show (if oc.isEmpty = false ∧ nc.length * 2 < oc.length then b
              else updateContentRow now nc b).pageContent = some nc
        rw [if_neg hno]
        rfl
      · show (if oc.isEmpty = false ∧ nc.length * 2 < oc.length then b
              else updateContentRow now nc b).fetchFailedAt = b.fetchFailedAt
        rw [if_neg hno]
        rfl

/-- Witness for C8 at a concrete bookmark whose re-fetch returns a long but
still garbled page: the row is left unchanged. -/
theorem refetch_step_spec_witness :
    refetchStep 9 qbRepair (some garbled60) = qbRepair ∧
    50 < garbled60.length ∧ (detectGarbledContent garbled60).isGarbled = true :=
  ⟨(refetch_step_spec 9 qbRepair garbled60).2.2.2.2.1 (by decide) (by decide),
   by decide, by decide⟩

/-- C8 counterexample: the claim as stated says every rejection of re-fetched
content dead-marks the bookmark; here a 60-character still-garbled re-fetch is
rejected, yet fetch_failed_at stays null and the repair scan does not skip the
bookmark afterwards. -/
theorem refetch_reject_not_deadmarked :
    refetchStep 9 qbRepair (some garbled60) = qbRepair ∧
    qbRepair.fetchFailedAt = none ∧
    50 < garbled60.length ∧
    (detectGarbledContent garbled60).isGarbled = true ∧
    repairScanSkips (refetchStep 9 qbRepair (some garbled60)) = false := by
  decide

/-- Helper: unrolling of the merge fold of loadSearchStrategies into a
filterMap of pushed strategies and a filterMap of used ids. -/
theorem mergeStep_foldl (l : List SavedStrategy) (a1 : List SearchStrategy)
    (a2 : List String) :
    l.foldl mergeStep (a1, a2) =
      (a1 ++ l.filterMap (fun sv =>
         (DEFAULT_SEARCH_STRATEGIES.find? (fun d => d.id == sv.id)).map
           (fun d => setEnabled d sv.enabled)),
       a2 ++ l.filterMap (fun sv =>
         (DEFAULT_SEARCH_STRATEGIES.find? (fun d => d.id == sv.id)).map
           (fun _ => sv.id))) := by
  induction l generalizing a1 a2 with
  | nil => simp
  | cons sv rest ih =>
    rw [List.foldl_cons]
    cases h : DEFAULT_SEARCH_STRATEGIES.find? (fun d => d.id == sv.id) with
    | some d =>
      have hstep : mergeStep (a1, a2) sv = (a1 ++ [setEnabled d sv.enabled], a2 ++ [sv.id]) := by
        simp [mergeStep, h]
      rw [hstep, ih]
      simp only [List.filterMap_cons, h, Option.map_some', List.append_assoc,
        List.singleton_append]
    | none =>
      have hstep : mergeStep (a1, a2) sv = (a1, a2) := by
        simp [mergeStep, h]
      rw [hstep, ih]
      simp only [List.filterMap_cons, h, Option.map_none']

/-- Helper: the used-id list produced by the merge fold contains the id of a
default strategy exactly when some saved pair carries that id. -/
theorem mergeUsedIds_contains (l : List SavedStrategy) (d : SearchStrategy)
    (hd : d ∈ DEFAULT_SEARCH_STRATEGIES) :
    (l.filterMap (fun sv =>
      (DEFAULT_SEARCH_STRATEGIES.find? (fun x => x.id == sv.id)).map
        (fun _ => sv.id))).contains d.id
    = l.any (fun sv => sv.id == d.id) := by
  apply Bool.eq_iff_iff.mpr
  constructor
  · intro hc
    have hmem : d.id ∈ l.filterMap (fun sv =>
        (DEFAULT_SEARCH_STRATEGIES.find? (fun x => x.id == sv.id)).map
          (fun _ => sv.id)) := by
      simpa using hc
    obtain ⟨sv, hsv, hsome⟩ := List.mem_filterMap.mp hmem
    obtain ⟨a, _, hid⟩ := Option.map_eq_some'.mp hsome
    exact List.any_eq_true.mpr ⟨sv, hsv, by simp [hid]⟩
  · intro ha
    obtain ⟨sv, hsv, hid⟩ := List.any_eq_true.mp ha
    have hid2 : sv.id = d.id := eq_of_beq hid
    have hfind : (DEFAULT_SEARCH_STRATEGIES.find? (fun x => x.id == sv.id)).isSome = true :=
      List.find?_isSome.mpr ⟨d, hd, by show (d.id == sv.id) = true; rw [hid2]; exact beq_self_eq_true _⟩
    obtain ⟨a, ha2⟩ := Option.isSome_iff_exists.mp hfind
    have hmem : d.id ∈ l.filterMap (fun sv =>
        (DEFAULT_SEARCH_STRATEGIES.find? (fun x => x.id == sv.id)).map
          (fun _ => sv.id)) :=
      List.mem_filterMap.mpr ⟨sv, hsv, by rw [ha2, Option.map_some', hid2]⟩
    simpa using hmem

/-- C5: loadSearchStrategies computes exactly the merge the claim describes:
for each saved pair in saved order whose id exists among the hardcoded
defaults, the default definition with the saved enabled flag; then, in default
order, every default whose id is absent from the saved list; and the defaults
verbatim when the saved list is absent or empty. -/
theorem loadSearchStrategies_eq_spec (savedOrder : Option (List SavedStrategy)) :
    loadSearchStrategies savedOrder = loadStrategiesSpec savedOrder := by
  cases savedOrder with
  | none => rfl
  | some l =>
    by_cases h : l.isEmpty = true
    · simp [loadSearchStrategies, loadStrategiesSpec, h]
    · simp only [loadSearchStrategies, loadStrategiesSpec, h, if_neg, Bool.false_eq_true,
        not_false_eq_true]
      rw [mergeStep_foldl]
      simp only [List.nil_append]
      congr 1
      apply List.filter_congr
      intro d hd
      rw [mergeUsedIds_contains l d hd]

/-- Helper: the phase-1 strategy loop returns the first index, in priority
order, at which a non-skipped strategy matches. -/
theorem firstMatchIdxAux_first (pm : String → String → Bool) (st : SearchType) (q : String)
    (b : BookmarkWithDetails) :
    ∀ (strats : List SearchStrategy) (n j : Nat) (hj : j < strats.length),
      strategyApplicable st strats[j] = true →
      strategyHits pm q b strats[j] = true →
      (∀ k (hk : k < j), strategyApplicable st strats[k] = false ∨
        strategyHits pm q b strats[k] = false) →
      firstMatchIdxAux pm st q b strats n = some (n + j, strats[j]) := by
  intro strats
  induction strats with
  | nil =>
    intro n j hj
    exact absurd hj (by simp)
  | cons s rest ih =>
    intro n j hj happ hhit hmin
    cases j with
    | zero =>
      rw [List.getElem_cons_zero] at happ hhit
      have hparts : (s.field == SearchField.content && st != SearchType.fulltext) = false ∧
          (s.matchType == MatchMode.fuzzy) = false := by
        unfold strategyApplicable at happ
        constructor
        · cases hx : (s.field == SearchField.content && st != SearchType.fulltext) with
          | false => rfl
          | true => rw [hx] at happ; simp at happ
        · cases hx : (s.matchType == MatchMode.fuzzy) with
          | false => rfl
          | true => rw [hx] at happ; simp [hx] at happ
      unfold firstMatchIdxAux
      rw [if_neg (by simp [hparts.1]), if_neg (by simp [hparts.2]), if_pos hhit]
      simp
    | succ j' =>
      have hj' : j' < rest.length := by simpa using hj
      have happ' : strategyApplicable st rest[j'] = true := by
        rwa [List.getElem_cons_succ] at happ
      have hhit' : strategyHits pm q b rest[j'] = true := by
        rwa [List.getElem_cons_succ] at hhit
      have hmin' : ∀ k (hk : k < j'), strategyApplicable st rest[k] = false ∨
          strategyHits pm q b rest[k] = false := by
        intro k hk
        have := hmin (k + 1) (by omega)
        rwa [List.getElem_cons_succ] at this
      have hrec := ih (n + 1) j' hj' happ' hhit' hmin'
      have h0 := hmin 0 (Nat.succ_pos j')
      rw [List.getElem_cons_zero] at h0
      unfold firstMatchIdxAux
      by_cases hA : (s.field == SearchField.content && st != SearchType.fulltext) = true
      · rw [if_pos hA, hrec]
        rw [List.getElem_cons_succ]
        congr 2
        omega
      · rw [if_neg hA]
        by_cases hB : (s.matchType == MatchMode.fuzzy) = true
        · rw [if_pos hB, hrec]
          rw [List.getElem_cons_succ]
          congr 2
          omega
        · rw [if_neg hB]
          have hsapp : strategyApplicable st s = true := by
            unfold strategyApplicable
            simp only [Bool.eq_false_iff] at hA hB
            simp [Bool.eq_false_iff.mpr hA, Bool.eq_false_iff.mpr hB]
          have hshit : strategyHits pm q b s = false := by
            rcases h0 with h | h
            · rw [hsapp] at h; cases h
            · exact h
          rw [if_neg (by simp [hshit]), hrec]
          rw [List.getElem_cons_succ]
          congr 2
          omega

/-- C1: in the strategy phase of search, a bookmark whose first non-skipped
matching enabled strategy (skipping fuzzy strategies, and content-field
strategies outside fulltext searches) sits at priority index j is scored by
that strategy alone — scoreBookmark returns exactly one result for it, with
score calculateScore j totalEnabledStrategies — and that single result is what
the phase contributes for the bookmark to the candidate result set. -/
theorem strategy_phase_first_strategy_scores (pm : String → String → Bool) (st : SearchType)
    (q : String) (enabled : List SearchStrategy) (candidates : List BookmarkWithDetails)
    (b : BookmarkWithDetails) (j : Nat) (hj : j < enabled.length)
    (happ : strategyApplicable st enabled[j] = true)
    (hhit : strategyHits pm q b enabled[j] = true)
    (hfirst : ∀ k (hk : k < j), strategyApplicable st enabled[k] = false ∨
      strategyHits pm q b enabled[k] = false)
    (hb : b ∈ candidates) :
    scoreBookmark pm st q enabled b =
      some ⟨b, calculateScore j enabled.length,
            fieldToMatchType (enabled[j]).field (enabled[j]).matchType,
            fieldName (enabled[j]).field⟩ ∧
    (⟨b, calculateScore j enabled.length,
      fieldToMatchType (enabled[j]).field (enabled[j]).matchType,
      fieldName (enabled[j]).field⟩ : SearchResult) ∈
        strategyPhase pm st q enabled candidates := by
  have h1 := firstMatchIdxAux_first pm st q b enabled 0 j hj happ hhit hfirst
  have h2 : scoreBookmark pm st q enabled b =
      some ⟨b, calculateScore j enabled.length,
            fieldToMatchType (enabled[j]).field (enabled[j]).matchType,
            fieldName (enabled[j]).field⟩ := by
    unfold scoreBookmark firstMatchIdx
    rw [h1]
    simp
  exact ⟨h2, List.mem_filterMap.mpr ⟨b, hb, h2⟩⟩

/-- Witness for C1 at a concrete configuration: with two enabled strategies
(case-insensitive title match first, fuzzy url match second), a bookmark
titled React Guide matches the query react at index 0 and is scored
calculateScore 0 2. -/
theorem strategy_phase_first_strategy_scores_witness :
    scoreBookmark (fun _ _ => false) SearchType.default qReactW enabledW bmkReact =
      some ⟨bmkReact, calculateScore 0 enabledW.length, MatchType.exact,
            fieldName SearchField.title⟩ ∧
    (⟨bmkReact, calculateScore 0 enabledW.length, MatchType.exact,
      fieldName SearchField.title⟩ : SearchResult) ∈
        strategyPhase (fun _ _ => false) SearchType.default qReactW enabledW [bmkReact] :=
  strategy_phase_first_strategy_scores (fun _ _ => false) SearchType.default qReactW
    enabledW [bmkReact] bmkReact 0 (by decide) (by decide) (by decide)
    (fun k hk => absurd hk (Nat.not_lt_zero k)) (List.mem_cons_self _ _)

/-- Helper: calculateScore is antitone in the strategy index. -/
theorem calculateScore_antitone (total : Nat) {j k : Nat} (h : j ≤ k) :
    calculateScore k total ≤ calculateScore j total := by
  unfold calculateScore
  have hd : (0:ℚ) < ((max 1 (total - 1) : Nat) : ℚ) := by
    have h1 : (0:Nat) < max 1 (total - 1) :=
      Nat.lt_of_lt_of_le Nat.zero_lt_one (le_max_left 1 (total - 1))
    exact_mod_cast h1
  have hjk : (j:ℚ) ≤ (k:ℚ) := by exact_mod_cast h
  have hdiv : (j:ℚ) / ((max 1 (total - 1) : Nat) : ℚ) ≤
      (k:ℚ) / ((max 1 (total - 1) : Nat) : ℚ) := by gcongr
  have hmul := mul_le_mul_of_nonneg_right hdiv (show (0:ℚ) ≤ 100 - 40 by norm_num)
  linarith

/-- Helper: every in-range strategy index scores at least the bottom score 40. -/
theorem calculateScore_ge_forty (i total : Nat) (h : i < total) :
    (40:ℚ) ≤ calculateScore i total := by
  unfold calculateScore
  have hd0 : (0:Nat) < max 1 (total - 1) :=
    Nat.lt_of_lt_of_le Nat.zero_lt_one (le_max_left 1 (total - 1))
  have hd : (0:ℚ) < ((max 1 (total - 1) : Nat) : ℚ) := by exact_mod_cast hd0
  have hile : i ≤ max 1 (total - 1) := by
    have h1 : i ≤ total - 1 := by omega
    exact le_trans h1 (le_max_right 1 (total - 1))
  have hi : (i:ℚ) ≤ ((max 1 (total - 1) : Nat) : ℚ) := by exact_mod_cast hile
  have hfrac : (i:ℚ) / ((max 1 (total - 1) : Nat) : ℚ) ≤ 1 := (div_le_one hd).mpr hi
  have hmul := mul_le_mul_of_nonneg_right hfrac (show (0:ℚ) ≤ 100 - 40 by norm_num)
  linarith

/-- Helper: unrolling of the phase-2 insertion loop — it appends to the
accumulator exactly the hits not already present by id, each scored by the
fuzzy base score scaled by one minus the hit score. -/
theorem addFuzzyHits_spec (base : ℚ) :
    ∀ (hits : List FuseHit) (acc : List SearchResult),
      ∃ added, addFuzzyHits base hits acc = acc ++ added ∧
        added.length ≤ hits.length ∧
        ∀ a ∈ added, (∀ p ∈ acc, a.bookmark.id ≠ p.bookmark.id) ∧
          ∃ h ∈ hits, a.bookmark = h.item ∧ a.score = base * (1 - h.score) ∧
            a.matchType = MatchType.fuzzy := by
  intro hits
  induction hits with
  | nil =>
    intro acc
    exact ⟨[], by simp [addFuzzyHits], by simp, by simp⟩
  | cons h rest ih =>
    intro acc
    by_cases hmem : acc.any (fun r => r.bookmark.id == h.item.id) = true
    · obtain ⟨added, he, hlen, hprop⟩ := ih acc
      refine ⟨added, ?_, ?_, ?_⟩
      · rw [addFuzzyHits, if_pos hmem]
        exact he
      · exact Nat.le_succ_of_le hlen
      · intro a ha
        obtain ⟨hids, h2, hh2, hps⟩ := hprop a ha
        exact ⟨hids, h2, List.mem_cons_of_mem _ hh2, hps⟩
    · obtain ⟨added, he, hlen, hprop⟩ :=
        ih (acc ++ [⟨h.item, base * (1 - h.score), MatchType.fuzzy, "fuzzy"⟩])
      refine ⟨⟨h.item, base * (1 - h.score), MatchType.fuzzy, "fuzzy"⟩ :: added, ?_, ?_, ?_⟩
      · rw [addFuzzyHits, if_neg hmem, he, List.append_assoc]
        rfl
      · simpa using Nat.succ_le_succ hlen
      · intro a ha
        have hall : ∀ p ∈ acc, ¬ (p.bookmark.id == h.item.id) = true :=
          List.any_eq_false.mp (Bool.eq_false_iff.mpr hmem)
        rcases List.mem_cons.mp ha with rfl | ha'
        · refine ⟨?_, h, List.mem_cons_self _ _, rfl, rfl, rfl⟩
          intro p hp heq
          exact hall p hp (beq_iff_eq.mpr heq.symm)
        · obtain ⟨hids, h2, hh2, hps⟩ := hprop a ha'
          refine ⟨?_, h2, List.mem_cons_of_mem _ hh2, hps⟩
          intro p hp
          exact hids p (List.mem_append_left _ hp)

/-- C4: the fuzzy phase of search leaves phase-1 results untouched unless the
result count is below the limit, a fuzzy strategy is enabled and the query is
non-empty; when it runs it appends at most limit minus current count hits
whose ids are not already present, each scored as the fuzzy strategy's
position-derived base score times the hit's match quality (one minus the Fuse
score); under the hit-quality bounds zero to one, no such fuzzy score exceeds
the position score of any strategy index of equal or higher configured
priority than the fuzzy strategy; and among the added fuzzy hits, better
match quality never scores lower. -/
theorem fuzzy_phase_spec (fuseHits : List FuseHit) (limit : Nat)
    (enabled : List SearchStrategy) (fi : Nat)
    (hfi : enabled.findIdx? (fun s => s.matchType == MatchMode.fuzzy) = some fi)
    (hasFuzzy : Bool) (effQ : String) (phase1 : List SearchResult)
    (hq : ∀ h ∈ fuseHits, (0:ℚ) ≤ h.score ∧ h.score ≤ 1) :
    (¬ (phase1.length < limit ∧ hasFuzzy = true ∧ effQ.isEmpty = false) →
      fuzzyPhase fuseHits limit (calculateScore fi enabled.length) hasFuzzy effQ phase1 =
        phase1) ∧
    ∃ added,
      fuzzyPhase fuseHits limit (calculateScore fi enabled.length) hasFuzzy effQ phase1 =
        phase1 ++ added ∧
      added.length ≤ limit - phase1.length ∧
      (∀ a ∈ added, (∀ p ∈ phase1, a.bookmark.id ≠ p.bookmark.id) ∧
        ∃ h ∈ fuseHits, a.bookmark = h.item ∧
          a.score = calculateScore fi enabled.length * (1 - h.score) ∧
          a.matchType = MatchType.fuzzy) ∧
      (∀ a ∈ added, ∀ j, j ≤ fi → a.score ≤ calculateScore j enabled.length) ∧
      (∀ a ∈ added, ∀ a2 ∈ added, ∀ q1 q2 : ℚ,
        a.score = calculateScore fi enabled.length * (1 - q1) →
        a2.score = calculateScore fi enabled.length * (1 - q2) →
        q1 ≤ q2 → a2.score ≤ a.score) := by
  have hfi_lt : fi < enabled.length :=
    (List.findIdx?_eq_some_iff_findIdx_eq.mp hfi).1
  have hbase40 := calculateScore_ge_forty fi enabled.length hfi_lt
  have hbase0 : (0:ℚ) ≤ calculateScore fi enabled.length := by linarith
  constructor
  · intro hno
    unfold fuzzyPhase
    rw [if_neg hno]
  · by_cases hrun : phase1.length < limit ∧ hasFuzzy = true ∧ effQ.isEmpty = false
    · obtain ⟨added, he, hlen, hprop⟩ :=
        addFuzzyHits_spec (calculateScore fi enabled.length)
          (fuseHits.take (limit - phase1.length)) phase1
      refine ⟨added, ?_, ?_, ?_, ?_, ?_⟩
      · unfold fuzzyPhase
        rw [if_pos hrun]
        exact he
      · calc added.length ≤ (fuseHits.take (limit - phase1.length)).length := hlen
          _ ≤ limit - phase1.length := by
              rw [List.length_take]
              exact min_le_left _ _
      · intro a ha
        obtain ⟨hids, h, hh, hrest⟩ := hprop a ha
        exact ⟨hids, h, (List.take_sublist _ _).subset hh, hrest⟩
      · intro a ha j hj
        obtain ⟨hids, h, hh, hbook, hs, hmt⟩ := hprop a ha
        have hhin : h ∈ fuseHits := (List.take_sublist _ _).subset hh
        obtain ⟨hq0, hq1⟩ := hq h hhin
        have hstep : a.score ≤ calculateScore fi enabled.length := by
          rw [hs]
          have := mul_le_mul_of_nonneg_left (show (1:ℚ) - h.score ≤ 1 by linarith) hbase0
          simpa using this
        exact le_trans hstep (calculateScore_antitone enabled.length hj)
      · intro a _ a2 _ q1 q2 h1 h2 hle
        rw [h1, h2]
        exact mul_le_mul_of_nonneg_left (by linarith) hbase0
    · refine ⟨[], ?_, by simp, by simp, by simp, by simp⟩
      unfold fuzzyPhase
      rw [if_neg hrun]
      simp

/-- Witness for C4 at a concrete configuration: two enabled strategies with
the fuzzy one at index 1, one Fuse hit of score one half, empty phase-1
results and limit 5. -/
theorem fuzzy_phase_spec_witness :
    (∀ h ∈ [fuseHitW], (0:ℚ) ≤ h.score ∧ h.score ≤ 1) ∧
    ((¬ ((List.length ([] : List SearchResult)) < 5 ∧ true = true ∧ qReactW.isEmpty = false) →
      fuzzyPhase [fuseHitW] 5 (calculateScore 1 enabledW.length) true qReactW [] = []) ∧
    ∃ added,
      fuzzyPhase [fuseHitW] 5 (calculateScore 1 enabledW.length) true qReactW [] =
        [] ++ added ∧
      added.length ≤ 5 - (List.length ([] : List SearchResult)) ∧
      (∀ a ∈ added, (∀ p ∈ ([] : List SearchResult), a.bookmark.id ≠ p.bookmark.id) ∧
        ∃ h ∈ [fuseHitW], a.bookmark = h.item ∧
          a.score = calculateScore 1 enabledW.length * (1 - h.score) ∧
          a.matchType = MatchType.fuzzy) ∧
      (∀ a ∈ added, ∀ j, j ≤ 1 → a.score ≤ calculateScore j enabledW.length) ∧
      (∀ a ∈ added, ∀ a2 ∈ added, ∀ q1 q2 : ℚ,
        a.score = calculateScore 1 enabledW.length * (1 - q1) →
        a2.score = calculateScore 1 enabledW.length * (1 - q2) →
        q1 ≤ q2 → a2.score ≤ a.score)) :=
  ⟨by decide,
   fuzzy_phase_spec [fuseHitW] 5 enabledW 1 rfl true qReactW [] (by decide)⟩

/-- Helper: sortInsert produces a permutation of consing the element. -/
theorem sortInsert_perm {α : Type} (le : α → α → Bool) (a : α) :
    ∀ l : List α, (sortInsert le a l).Perm (a :: l) := by
  intro l
  induction l with
  | nil => exact List.Perm.refl _
  | cons b t ih =>
    unfold sortInsert
    by_cases h : le a b = true
    · rw [if_pos h]
    · rw [if_neg h]
      exact (ih.cons b).trans (List.Perm.swap a b t)

/-- Helper: stableSort permutes its input. -/
theorem stableSort_perm {α : Type} (le : α → α → Bool) :
    ∀ l : List α, (stableSort le l).Perm l := by
  intro l
  induction l with
  | nil => exact List.Perm.refl _
  | cons a t ih =>
    unfold stableSort
    exact (sortInsert_perm le a (stableSort le t)).trans (ih.cons a)

/-- Helper: sortInsert preserves sortedness for a transitive total comparator. -/
theorem sortInsert_pairwise {α : Type} (le : α → α → Bool)
    (htrans : ∀ x y z, le x y = true → le y z = true → le x z = true)
    (htot : ∀ x y, le x y = true ∨ le y x = true) (a : α) :
    ∀ l : List α, l.Pairwise (fun x y => le x y = true) →
      (sortInsert le a l).Pairwise (fun x y => le x y = true) := by
  intro l
  induction l with
  | nil =>
    intro _
    exact List.pairwise_singleton _ _
  | cons b t ih =>
    intro hp
    obtain ⟨hb, ht⟩ := List.pairwise_cons.mp hp
    unfold sortInsert
    by_cases hab : le a b = true
    · rw [if_pos hab]
      refine List.pairwise_cons.mpr ⟨?_, hp⟩
      intro y hy
      rcases List.mem_cons.mp hy with rfl | hy'
      · exact hab
      · exact htrans a b y hab (hb y hy')
    · rw [if_neg hab]
      refine List.pairwise_cons.mpr ⟨?_, ih ht⟩
      intro y hy
      have hy2 : y ∈ a :: t := (sortInsert_perm le a t).mem_iff.mp hy
      rcases List.mem_cons.mp hy2 with rfl | hy'
      · rcases htot y b with h | h
        · exact absurd h hab
        · exact h
      · exact hb y hy'

/-- Helper: stableSort sorts with respect to a transitive total comparator. -/
theorem stableSort_pairwise {α : Type} (le : α → α → Bool)
    (htrans : ∀ x y z, le x y = true → le y z = true → le x z = true)
    (htot : ∀ x y, le x y = true ∨ le y x = true) :
    ∀ l : List α, (stableSort le l).Pairwise (fun x y => le x y = true) := by
  intro l
  induction l with
  | nil => exact List.Pairwise.nil
  | cons a t ih =>
    unfold stableSort
    exact sortInsert_pairwise le htrans htot a _ ih

/-- Helper: the category-browse comparator is transitive. -/
theorem catLe_trans : ∀ a b c : BookmarkWithDetails,
    catLe a b = true → catLe b c = true → catLe a c = true := by
  intro a b c hab hbc
  unfold catLe at *
  by_cases hA : a.isPinned <;> by_cases hB : b.isPinned <;> by_cases hC : c.isPinned <;>
    simp_all [decide_eq_true_eq] <;> omega

/-- Helper: the category-browse comparator is total. -/
theorem catLe_total : ∀ a b : BookmarkWithDetails,
    catLe a b = true ∨ catLe b a = true := by
  intro a b
  unfold catLe
  by_cases hA : a.isPinned <;> by_cases hB : b.isPinned <;>
    simp [hA, hB, decide_eq_true_eq] <;> omega

/-- Helper: the final-sort comparator is transitive. -/
theorem resLe_trans : ∀ a b c : SearchResult,
    resLe a b = true → resLe b c = true → resLe a c = true := by
  intro a b c hab hbc
  unfold resLe at *
  by_cases hA : a.bookmark.isPinned <;> by_cases hB : b.bookmark.isPinned <;>
    by_cases hC : c.bookmark.isPinned <;>
    simp_all [decide_eq_true_eq] <;> linarith

/-- Helper: the final-sort comparator is total. -/
theorem resLe_total : ∀ a b : SearchResult,
    resLe a b = true ∨ resLe b a = true := by
  intro a b
  unfold resLe
  by_cases hA : a.bookmark.isPinned <;> by_cases hB : b.bookmark.isPinned <;>
    simp [hA, hB, decide_eq_true_eq]
  · exact le_total b.score a.score
  · exact le_total b.score a.score

/-- Helper: a sorted pair under catLe transports pinnedness backwards. -/
theorem catLe_pinned_imp {a b : BookmarkWithDetails} (h : catLe a b = true) :
    b.isPinned = true → a.isPinned = true := by
  intro hb
  by_cases ha : a.isPinned = true
  · exact ha
  · exfalso
    have ha' : a.isPinned = false := Bool.eq_false_iff.mpr ha
    unfold catLe at h
    rw [ha', hb] at h
    simp at h

/-- Helper: an all-pinned block followed by an all-unpinned block satisfies the
pinned-precede ordering relation pairwise. -/
theorem pinned_split_pairwise (l1 l2 : List SearchResult)
    (h1 : ∀ r ∈ l1, r.bookmark.isPinned = true)
    (h2 : ∀ r ∈ l2, r.bookmark.isPinned = false) :
    (l1 ++ l2).Pairwise
      (fun a b => b.bookmark.isPinned = true → a.bookmark.isPinned = true) := by
  refine List.pairwise_append.mpr ⟨?_, ?_, ?_⟩
  · exact List.pairwise_of_forall_mem_list (fun a ha b _ => fun _ => h1 a ha)
  · refine List.pairwise_of_forall_mem_list (fun a _ b hb => ?_)
    intro hbp
    rw [h2 b hb] at hbp
    cases hbp
  · intro a ha b _
    exact fun _ => h1 a ha

/-- Helper: sortByFrecency only reorders, under the collaborator contract that
the frecency sorter returns elements of its input. -/
theorem sortByFrecency_mem (env : SearchEnv)
    (hfrec : ∀ q l, ∀ r ∈ env.frecencySort q l, r ∈ l)
    (q : String) (rs : List SearchResult) :
    ∀ r ∈ sortByFrecency env q rs, r ∈ rs := by
  intro r hr
  simp only [sortByFrecency] at hr
  split at hr
  · exact hr
  · exact hfrec _ _ r hr

/-- Helper: the shared phase pipeline emits every pinned result before every
non-pinned result. -/
theorem runPhases_pinned_pairwise (env : SearchEnv)
    (hfrec : ∀ q l, ∀ r ∈ env.frecencySort q l, r ∈ l)
    (enabled : List SearchStrategy) (st : SearchType) (effQ origQ : String) (limit : Nat)
    (candidates : List BookmarkWithDetails) :
    (runPhases env enabled st effQ origQ limit candidates).Pairwise
      (fun a b => b.bookmark.isPinned = true → a.bookmark.isPinned = true) := by
  unfold runPhases
  apply pinned_split_pairwise
  · intro r hr
    exact (List.mem_filter.mp hr).2
  · intro r hr
    have hr2 := sortByFrecency_mem env hfrec _ _ r hr
    have hfil := (List.mem_filter.mp hr2).2
    simpa using hfil

/-- C2: every result list search produces keeps all pinned results ahead of
all non-pinned results, whatever the scores and whatever reordering the
frecency collaborator applies, because only the non-pinned partition passes
through frecency and is concatenated after the pinned partition (and the
category-browse branch sorts pinned-first directly). The collaborator
hypothesis is the frecency contract: it returns elements of its input. -/
theorem search_pinned_precede (env : SearchEnv)
    (hfrec : ∀ q l, ∀ r ∈ env.frecencySort q l, r ∈ l)
    (strategies : List SearchStrategy) (index : List BookmarkWithDetails)
    (query : String) (st : SearchType) (limit : Nat) :
    (search env strategies index query st limit).Pairwise
      (fun a b => b.bookmark.isPinned = true → a.bookmark.isPinned = true) := by
  simp only [search]
  split
  · exact List.Pairwise.nil
  · split
    · split
      · rw [List.pairwise_map]
        have hsorted := stableSort_pairwise catLe catLe_trans catLe_total
          (index.filter (categoryNameMatches (parseCategorySearch query).category))
        have htake := List.Pairwise.sublist (List.take_sublist limit _) hsorted
        exact htake.imp (fun hab => catLe_pinned_imp hab)
      · exact runPhases_pinned_pairwise env hfrec _ _ _ _ _ _
    · exact runPhases_pinned_pairwise env hfrec _ _ _ _ _ _

/-- Witness for C2 at a concrete environment and index: the trivial
collaborators satisfy the frecency contract, and the search output over a
two-bookmark category index is pairwise pinned-first. -/
theorem search_pinned_precede_witness :
    (∀ q l, ∀ r ∈ envTrivial.frecencySort q l, r ∈ l) ∧
    (search envTrivial enabledW [bmkX1, bmkX2] qReactW SearchType.default 20).Pairwise
      (fun a b => b.bookmark.isPinned = true → a.bookmark.isPinned = true) :=
  ⟨fun _ _ _ hr => hr,
   search_pinned_precede envTrivial (fun _ _ _ hr => hr) enabledW [bmkX1, bmkX2]
     qReactW SearchType.default 20⟩

/-- Helper: dropWhile leaves a list whose every element fails the predicate. -/
theorem dropWhile_all_false {p : Char → Bool} :
    ∀ l : List Char, (∀ c ∈ l, p c = false) → l.dropWhile p = l := by
  intro l
  induction l with
  | nil => intro _; rfl
  | cons c t ih =>
    intro h
    rw [List.dropWhile_cons, if_neg (by simp [h c (List.mem_cons_self c t)])]

/-- Helper: takeWhile and dropWhile over a list whose every element satisfies
the predicate. -/
theorem takeWhile_all_true {p : Char → Bool} :
    ∀ l : List Char, (∀ c ∈ l, p c = true) →
      l.takeWhile p = l ∧ l.dropWhile p = [] := by
  intro l
  induction l with
  | nil => intro _; exact ⟨rfl, rfl⟩
  | cons c t ih =>
    intro h
    have hc : p c = true := h c (List.mem_cons_self c t)
    have ht := ih (fun d hd => h d (List.mem_cons_of_mem c hd))
    constructor
    · rw [List.takeWhile_cons, if_pos hc, ht.1]
    · rw [List.dropWhile_cons, if_pos hc, ht.2]

/-- Helper: takeWhile and dropWhile of an all-true block followed by a failing
element split exactly at that element. -/
theorem takeWhile_append_block {p : Char → Bool} :
    ∀ (l : List Char), (∀ c ∈ l, p c = true) → ∀ (x : Char) (r : List Char), p x = false →
      (l ++ x :: r).takeWhile p = l ∧ (l ++ x :: r).dropWhile p = x :: r := by
  intro l
  induction l with
  | nil =>
    intro _ x r hx
    constructor
    · rw [List.nil_append, List.takeWhile_cons, if_neg (by simp [hx])]
    · rw [List.nil_append, List.dropWhile_cons, if_neg (by simp [hx])]
  | cons c t ih =>
    intro h x r hx
    have hc : p c = true := h c (List.mem_cons_self c t)
    have ht := ih (fun d hd => h d (List.mem_cons_of_mem c hd)) x r hx
    constructor
    · rw [List.cons_append, List.takeWhile_cons, if_pos hc, ht.1]
    · rw [List.cons_append, List.dropWhile_cons, if_pos hc, ht.2]

/-- Helper: a dropWhile fixed point that is a cons has a failing head. -/
theorem dropWhile_eq_self_head {p : Char → Bool} {c : Char} {t : List Char}
    (h : (c :: t).dropWhile p = c :: t) : p c = false := by
  by_cases hc : p c = true
  · exfalso
    rw [List.dropWhile_cons, if_pos hc] at h
    have hle := (List.dropWhile_sublist (l := t) (p := p)).length_le
    have := congrArg List.length h
    simp at this
    omega
  · exact Bool.eq_false_iff.mpr hc

/-- Helper: the trim of an at sign followed by a non-empty non-whitespace
token is itself. -/
theorem trim_at_tok (tok : List Char) (htok : tok ≠ [])
    (htokws : ∀ c ∈ tok, jsIsWhitespace c = false) :
    jsTrimL ('@' :: tok) = '@' :: tok := by
  unfold jsTrimL
  have hfront : ('@' :: tok).dropWhile jsIsWhitespace = '@' :: tok := by
    rw [List.dropWhile_cons, if_neg (by decide)]
  rw [hfront]
  have hall : ∀ c ∈ ('@' :: tok).reverse, jsIsWhitespace c = false := by
    intro c hc
    rcases List.mem_cons.mp (List.mem_reverse.mp hc) with rfl | hc'
    · decide
    · exact htokws c hc'
  rw [dropWhile_all_false _ hall, List.reverse_reverse]

/-- Helper: if a non-empty list is already trimmed on both ends, its reverse
is a dropWhile fixed point. -/
theorem reverse_dropWhile_of_trimmed {rest : List Char}
    (hnolead : rest.dropWhile jsIsWhitespace = rest)
    (htrimmed : jsTrimL rest = rest) :
    rest.reverse.dropWhile jsIsWhitespace = rest.reverse := by
  have h1 : jsTrimL rest = (rest.reverse.dropWhile jsIsWhitespace).reverse := by
    unfold jsTrimL
    rw [hnolead]
  rw [htrimmed] at h1
  have := congrArg List.reverse h1
  rw [List.reverse_reverse] at this
  exact this.symm

/-- Helper: the trim of a full category query (at sign, token, space, already
trimmed rest) is itself. -/
theorem trim_at_tok_rest (tok rest : List Char)
    (htokws : ∀ c ∈ tok, jsIsWhitespace c = false)
    (hrestne : rest ≠ [])
    (hnolead : rest.dropWhile jsIsWhitespace = rest)
    (htrimmed : jsTrimL rest = rest) :
    jsTrimL ('@' :: tok ++ ' ' :: rest) = '@' :: tok ++ ' ' :: rest := by
  unfold jsTrimL
  have hfront : ('@' :: tok ++ ' ' :: rest).dropWhile jsIsWhitespace =
      '@' :: tok ++ ' ' :: rest := by
    rw [show ('@' :: tok ++ ' ' :: rest) = '@' :: (tok ++ ' ' :: rest) from rfl]
    rw [List.dropWhile_cons, if_neg (by decide)]
  rw [hfront]
  have hrev : ('@' :: tok ++ ' ' :: rest).reverse =
      rest.reverse ++ (' ' :: (tok.reverse ++ ['@'])) := by
    simp
  rw [hrev]
  obtain ⟨c, t, hct⟩ : ∃ c t, rest.reverse = c :: t := by
    cases hr : rest.reverse with
    | nil =>
      exfalso
      have := congrArg List.reverse hr
      rw [List.reverse_reverse] at this
      exact hrestne (by simpa using this)
    | cons c t => exact ⟨c, t, rfl⟩
  have hhead : jsIsWhitespace c = false := by
    have hfix := reverse_dropWhile_of_trimmed hnolead htrimmed
    rw [hct] at hfix
    exact dropWhile_eq_self_head hfix
  rw [hct, List.cons_append, List.dropWhile_cons, if_neg (by simp [hhead])]
  have : (c :: (t ++ ' ' :: (tok.reverse ++ ['@']))).reverse =
      (rest.reverse ++ (' ' :: (tok.reverse ++ ['@']))).reverse := by
    rw [hct, List.cons_append]
  rw [this, hrev.symm, List.reverse_reverse]

/-- Helper: the category regex on an at sign followed by a bare token matches
with an absent rest group. -/
theorem categoryPrefixMatch_tokOnly (tok : List Char) (htok : tok ≠ [])
    (htokws : ∀ c ∈ tok, jsIsWhitespace c = false) :
    categoryPrefixMatch ('@' :: tok) = some (tok, none) := by
  simp only [categoryPrefixMatch]
  rw [if_pos (by decide)]
  have htk := takeWhile_all_true (p := fun d => !jsIsWhitespace d) tok
    (fun c hc => by simp [htokws c hc])
  rw [htk.1, htk.2]
  rw [if_neg (by simpa using htok)]
  rfl

/-- Helper: the category regex on a full query (token, one space, trimmed
terminator-free rest) captures the token and the rest. -/
theorem categoryPrefixMatch_tokRest (tok rest : List Char) (htok : tok ≠ [])
    (htokws : ∀ c ∈ tok, jsIsWhitespace c = false)
    (hnolead : rest.dropWhile jsIsWhitespace = rest)
    (hterm : ∀ c ∈ rest, isLineTerminator c = false) :
    categoryPrefixMatch ('@' :: tok ++ ' ' :: rest) = some (tok, some rest) := by
  rw [show ('@' :: tok ++ ' ' :: rest) = '@' :: (tok ++ ' ' :: rest) from rfl]
  simp only [categoryPrefixMatch]
  rw [if_pos (by decide)]
  have hblock := takeWhile_append_block (p := fun d => !jsIsWhitespace d) tok
    (fun c hc => by simp [htokws c hc]) ' ' rest (by decide)
  rw [hblock.1, hblock.2]
  rw [if_neg (by simpa using htok)]
  rw [if_neg (by simp)]
  have hr2 : List.dropWhile jsIsWhitespace (' ' :: rest) = rest := by
    rw [List.dropWhile_cons, if_pos (show jsIsWhitespace ' ' = true from by decide)]
    exact hnolead
  rw [hr2]
  have hany : rest.any isLineTerminator = false :=
    List.any_eq_false.mpr (fun c hc => by simp [hterm c hc])
  rw [if_neg (by simp [hany])]

/-- C3 (amended): a query of the shape at-token-space-rest (token non-empty
and whitespace-free, rest non-empty, already trimmed and free of line
terminators) parses to category = token and keyword = rest; and for a bare
at-token query, search returns exactly the bookmarks whose category name
equals the token case-insensitively — truncated to the first limit entries,
which under the hypothesis that the category holds at most limit bookmarks is
all of them — with no other filtering, sorted pinned-first then by last
update descending, every result carrying the synthetic top score 100 and
match-type category. -/
theorem category_search_spec
    (tok rest : List Char)
    (htok : tok ≠ [])
    (htokws : ∀ c ∈ tok, jsIsWhitespace c = false)
    (hrestne : rest ≠ [])
    (hnolead : rest.dropWhile jsIsWhitespace = rest)
    (htrimmed : jsTrimL rest = rest)
    (hterm : ∀ c ∈ rest, isLineTerminator c = false)
    (env : SearchEnv) (strategies : List SearchStrategy)
    (index : List BookmarkWithDetails) (st : SearchType) (limit : Nat)
    (hlim : (index.filter (categoryNameMatches (String.mk tok))).length ≤ limit) :
    parseCategorySearch (String.mk ('@' :: tok ++ ' ' :: rest)) =
      ⟨String.mk tok, String.mk rest⟩ ∧
    ((search env strategies index (String.mk ('@' :: tok)) st limit).map
        (fun r => r.bookmark)).Perm
      (index.filter (categoryNameMatches (String.mk tok))) ∧
    ((search env strategies index (String.mk ('@' :: tok)) st limit).map
        (fun r => r.bookmark)).Pairwise (fun a b => catLe a b = true) ∧
    (∀ r ∈ search env strategies index (String.mk ('@' :: tok)) st limit,
      r.score = 100 ∧ r.matchType = MatchType.category ∧ r.matchedField = "category") := by
  have hparse1 : parseCategorySearch (String.mk ('@' :: tok ++ ' ' :: rest)) =
      ⟨String.mk tok, String.mk rest⟩ := by
    unfold parseCategorySearch
    rw [show (jsTrim (String.mk ('@' :: tok ++ ' ' :: rest))).data =
        jsTrimL ('@' :: tok ++ ' ' :: rest) from rfl]
    rw [trim_at_tok_rest tok rest htokws hrestne hnolead htrimmed]
    rw [categoryPrefixMatch_tokRest tok rest htok htokws hnolead hterm]
    show ParsedCategory.mk (String.mk tok) (jsTrim (String.mk rest)) =
      ParsedCategory.mk (String.mk tok) (String.mk rest)
    rw [show jsTrim (String.mk rest) = String.mk (jsTrimL rest) from rfl, htrimmed]
  have htrimq := trim_at_tok tok htok htokws
  have hmatch0 := categoryPrefixMatch_tokOnly tok htok htokws
  have hparse0 : parseCategorySearch (String.mk ('@' :: tok)) =
      ⟨String.mk tok, String.mk []⟩ := by
    unfold parseCategorySearch
    rw [show (jsTrim (String.mk ('@' :: tok))).data = jsTrimL ('@' :: tok) from rfl,
      htrimq, hmatch0]
    rfl
  have hcat : isCategorySearch (String.mk ('@' :: tok)) = true := by
    unfold isCategorySearch
    rw [show (jsTrim (String.mk ('@' :: tok))).data = jsTrimL ('@' :: tok) from rfl,
      htrimq, hmatch0]
    rfl
  have hne : ((jsTrim (String.mk ('@' :: tok))).data.isEmpty = true) = False := by
    rw [show (jsTrim (String.mk ('@' :: tok))).data = jsTrimL ('@' :: tok) from rfl, htrimq]
    simp
  have hsearch : search env strategies index (String.mk ('@' :: tok)) st limit =
      ((stableSort catLe (index.filter (categoryNameMatches (String.mk tok)))).take
        limit).map (fun b => ⟨b, 100, MatchType.category, "category"⟩) := by
    simp only [search]
    rw [if_neg (by simp [hne]), if_pos hcat, hparse0]
    rfl
  have hlen2 : (stableSort catLe
      (index.filter (categoryNameMatches (String.mk tok)))).length =
      (index.filter (categoryNameMatches (String.mk tok))).length :=
    (stableSort_perm catLe _).length_eq
  have htakeall : (stableSort catLe
      (index.filter (categoryNameMatches (String.mk tok)))).take limit =
      stableSort catLe (index.filter (categoryNameMatches (String.mk tok))) :=
    List.take_of_length_le (by omega)
  have hmapid : ∀ l : List BookmarkWithDetails,
      (l.map (fun b => (⟨b, 100, MatchType.category, "category"⟩ : SearchResult))).map
        (fun r => r.bookmark) = l := by
    intro l
    rw [List.map_map]
    exact List.map_id _
  refine ⟨hparse1, ?_, ?_, ?_⟩
  · rw [hsearch, hmapid, htakeall]
    exact stableSort_perm catLe _
  · rw [hsearch, hmapid]
    exact List.Pairwise.sublist (List.take_sublist limit _)
      (stableSort_pairwise catLe catLe_trans catLe_total _)
  · intro r hr
    rw [hsearch] at hr
    obtain ⟨b, _, hb⟩ := List.mem_map.mp hr
    rw [← hb]
    exact ⟨rfl, rfl, rfl⟩

def tokSrv : List Char := "服务器".data

def restReact : List Char := "react".data

/-- Witness for C3 at the concrete inputs of the specification example: the
query at-服务器-space-react parses to category 服务器 and keyword react, and
the bare at-服务器 query over a one-bookmark index returns exactly that
category's bookmark, sorted, with the synthetic score. -/
theorem category_search_spec_witness :
    parseCategorySearch (String.mk ('@' :: tokSrv ++ ' ' :: restReact)) =
      ⟨String.mk tokSrv, String.mk restReact⟩ ∧
    ((search envTrivial enabledW [bmkServer] (String.mk ('@' :: tokSrv))
        SearchType.default 20).map (fun r => r.bookmark)).Perm
      ([bmkServer].filter (categoryNameMatches (String.mk tokSrv))) ∧
    ((search envTrivial enabledW [bmkServer] (String.mk ('@' :: tokSrv))
        SearchType.default 20).map (fun r => r.bookmark)).Pairwise
      (fun a b => catLe a b = true) ∧
    (∀ r ∈ search envTrivial enabledW [bmkServer] (String.mk ('@' :: tokSrv))
        SearchType.default 20,
      r.score = 100 ∧ r.matchType = MatchType.category ∧ r.matchedField = "category") :=
  category_search_spec tokSrv restReact (by decide) (by decide) (by decide) (by decide)
    (by decide) (by decide) envTrivial enabledW [bmkServer] SearchType.default 20 (by decide)

def qAtX : String := "@x"

/-- C3 counterexample: the claim as stated says the empty-keyword category
search returns the set of all bookmarks of the category; with two bookmarks
in category x and limit 1, the bookmark bmkX1 matches the category filter but
is absent from the result, because search slices the sorted category browse
to the first limit entries. -/
theorem category_search_not_all :
    categoryNameMatches ((parseCategorySearch qAtX).category) bmkX1 = true ∧
    ¬ (∀ b ∈ [bmkX1, bmkX2], categoryNameMatches ((parseCategorySearch qAtX).category) b = true →
        ∃ r ∈ search envTrivial enabledW [bmkX1, bmkX2] qAtX SearchType.default 1,
          r.bookmark = b) := by
  decide
